import Mathlib

/-!
Shallow embedding of the slug lifecycle engine of the Catalog repository
(src/affiliate_manager.py and src/data_handler.py), together with theorems
settling the specification claims about it.

Strings are modelled as Lean `String` (a list of `Char`, one per Unicode code
point, matching Python's `str` indexing and `len`).  Lower-casing and
whitespace classification are modelled on the ASCII range: every character the
slug pipeline can let through ([a-z0-9-]) is ASCII, and non-ASCII characters
are removed by the character-set filter on both sides of the embedding, so
this does not affect any of the properties proved here.  The CSV file I/O of
DataHandler is modelled as a `Store` value holding the loaded product table
and the list of backups; `datetime.now().strftime("%m%d")` in suggest_slug is
passed in as an explicit `timestamp` argument (the only impure input).
-/

namespace Catalog

/-- The newline character, written via its code point. -/
def newlineChar : Char := Char.ofNat 10

/-- A single ASCII apostrophe, used to reproduce the reserved-word message. -/
def squote : String := String.mk [Char.ofNat 39]

/-- Characters allowed by the slug character class `[a-z0-9-]`
(code points 97-122, 48-57, 45). -/
def isSlugChar (c : Char) : Bool :=
  (decide (97 ≤ c.toNat) && decide (c.toNat ≤ 122)) ||
  (decide (48 ≤ c.toNat) && decide (c.toNat ≤ 57)) ||
  decide (c.toNat = 45)

/-- Whitespace as matched by Python's `\s` / stripped by `str.strip()`
(ASCII part: space, tab, newline, carriage return, vertical tab, form feed). -/
def isPySpace (c : Char) : Bool :=
  decide (c.toNat = 32) || decide (c.toNat = 9) || decide (c.toNat = 10) ||
  decide (c.toNat = 13) || decide (c.toNat = 11) || decide (c.toNat = 12)

/-- The hyphen test used throughout the pipeline. -/
def isHyphen (c : Char) : Bool := decide (c = '-')

/-- ASCII lower-casing, as applied by `str.lower()` to the characters that
matter here (A-Z become a-z; everything else in range is left alone). -/
def lowerChar (c : Char) : Char :=
  if 65 ≤ c.toNat ∧ c.toNat ≤ 90 then Char.ofNat (c.toNat + 32) else c

/-- `str.lower()` on a whole string. -/
def lowerStr (s : String) : String := String.mk (s.data.map lowerChar)

/-- Replace every maximal run of characters satisfying `p` by the single
character `rep`; the flag records whether we are inside such a run.
This implements Python's `re.sub(p+, rep, s)` for a character class `p`. -/
def collapseAux (p : Char → Bool) (rep : Char) : List Char → Bool → List Char
  | [], _ => []
  | c :: cs, inRun =>
    if p c then
      if inRun then collapseAux p rep cs true
      else rep :: collapseAux p rep cs true
    else c :: collapseAux p rep cs false

/-- `re.sub(r'X+', rep, s)` for a character class `X` given by `p`. -/
def collapseRuns (p : Char → Bool) (rep : Char) (l : List Char) : List Char :=
  collapseAux p rep l false

/-- Remove the maximal suffix of characters satisfying `p`
(the right half of Python's `str.strip`). -/
def rstrip (p : Char → Bool) : List Char → List Char
  | [] => []
  | c :: cs =>
    match rstrip p cs with
    | [] => if p c then [] else [c]
    | r => c :: r

/-- Python's `str.strip(chars)`: drop the maximal prefix and suffix of
characters satisfying `p`. -/
def stripBoth (p : Char → Bool) (l : List Char) : List Char :=
  rstrip p (List.dropWhile p l)

/-- The last element of a character list, by structural recursion. -/
def lastChar : List Char → Option Char
  | [] => none
  | [c] => some c
  | _ :: c :: cs => lastChar (c :: cs)

/-- Drop the last element of a character list. -/
def dropLastChar : List Char → List Char
  | [] => []
  | [_] => []
  | c :: d :: cs => c :: dropLastChar (d :: cs)

/-- The character-list pipeline of `AffiliateManager.clean_slug`:
lower-case, strip surrounding whitespace, collapse whitespace runs to a
hyphen, remove everything outside `[a-z0-9-]`, collapse hyphen runs, and
trim leading/trailing hyphens. -/
def cleanList (l : List Char) : List Char :=
  stripBoth isHyphen
    (collapseRuns isHyphen '-'
      (List.filter isSlugChar
        (collapseRuns isPySpace '-'
          (stripBoth isPySpace (l.map lowerChar)))))

/-- `AffiliateManager.clean_slug` (src/affiliate_manager.py lines 27-45). -/
def clean_slug (s : String) : String :=
  if s = "" then "" else String.mk (cleanList s.data)

/-- The reserved words of `AffiliateManager.validate_slug`. -/
def reservedWords : List String :=
  ["admin", "api", "www", "mail", "ftp", "localhost", "root",
   "slicewp", "affiliate", "wp-admin", "wp-content", "wp-includes"]

/-- Python's `re.match(r'^[a-z0-9-]+$', s)` viewed as a boolean: `$` matches
at the end of the string or just before a newline that ends the string, so
the pattern accepts a non-empty all-`[a-z0-9-]` string optionally followed by
one trailing newline. -/
def pyMatchSlugRe (s : String) : Bool :=
  let l := s.data
  let core := if lastChar l = some newlineChar then dropLastChar l else l
  !core.isEmpty && core.all isSlugChar

/-- Does the list contain two adjacent hyphens (`'--' in slug`)? -/
def hasDD : List Char → Bool
  | a :: b :: t => (isHyphen a && isHyphen b) || hasDD (b :: t)
  | _ => false

/-- `AffiliateManager.validate_slug` (src/affiliate_manager.py lines 47-78):
the six checks in source order, first failure wins, with the exact
messages of the source. -/
def validate_slug (s : String) : Bool × String :=
  if s = "" then (false, "Slug cannot be empty")
  else if s.length < 3 then (false, "Slug must be at least 3 characters long")
  else if 100 < s.length then (false, "Slug cannot be longer than 100 characters")
  else if !pyMatchSlugRe s then
    (false, "Slug can only contain lowercase letters, numbers, and hyphens")
  else if s.data.head? = some '-' || lastChar s.data = some '-' then
    (false, "Slug cannot start or end with a hyphen")
  else if hasDD s.data then (false, "Slug cannot contain consecutive hyphens")
  else if reservedWords.contains s then
    (false, squote ++ s ++ squote ++ " is a reserved word and cannot be used")
  else (true, "Valid slug")

/-- A row of the product table as loaded by `DataHandler.load_products`:
`record_id` (a string), display name, description, images, and the nullable
`URL Slug` column (`none` models a missing/NaN cell). -/
structure Product where
  record_id : String
  name : String
  description : String
  images : String
  urlSlug : Option String
deriving DecidableEq

/-- The persisted state handled by `DataHandler`: the product table held in
the CSV file plus the backup files (most recent first). -/
structure Store where
  products : List Product
  backups : List (List Product)
deriving DecidableEq

/-- `DataHandler.check_slug_uniqueness` (src/data_handler.py lines 207-223):
optionally drop the excluded record (only when `exclude_record_id` is truthy,
i.e. present and non-empty), take the `URL Slug` column, drop only the `NaN`
entries (`dropna` keeps empty strings), lower-case, and test membership of
the lower-cased candidate. -/
def check_slug_uniqueness (products : List Product) (slug : String)
    (exclude : Option String) : Bool :=
  let df := match exclude with
    | some e => if e = "" then products
                else products.filter (fun p => decide (p.record_id ≠ e))
    | none => products
  let existing := (df.filterMap (fun p => p.urlSlug)).map lowerStr
  !(existing.contains (lowerStr slug))

/-- `AffiliateManager.suggest_slug` (src/affiliate_manager.py lines 84-109),
with `datetime.now().strftime("%m%d")` passed in as `ts`.  `range(2, 100)`
is `List.range' 2 98 = [2, ..., 99]`. -/
def suggest_slug (products : List Product) (name ts : String) : String :=
  if name = "" then ""
  else
    let base := clean_slug name
    if base.length < 3 then ""
    else if check_slug_uniqueness products base none then base
    else
      match List.find?
          (fun i => check_slug_uniqueness products (base ++ "-" ++ toString i) none)
          (List.range' 2 98) with
      | some i => base ++ "-" ++ toString i
      | none => base ++ "-" ++ ts

/-- `DataHandler.save_products` (src/data_handler.py lines 48-61): back up the
current file, then persist the new table.  `cleanup_old_backups` keeps the 10
most recent backups. -/
def save_products (st : Store) (df : List Product) : Bool × Store :=
  (true, Store.mk df ((st.products :: st.backups).take 10))

/-- `DataHandler.update_product_slug` (src/data_handler.py lines 100-126):
if no row's `record_id` matches, the raised `ValueError` is caught and the
call returns `False` with the store untouched (no save, hence no backup);
otherwise the `URL Slug` of every matching row is set and the table saved. -/
def update_product_slug (st : Store) (rid ns : String) : Bool × Store :=
  if st.products.any (fun p => decide (p.record_id = rid)) then
    save_products st
      (st.products.map (fun p =>
        if p.record_id = rid then
          Product.mk p.record_id p.name p.description p.images (some ns)
        else p))
  else (false, st)

/-- One bulk-update request item: the values of the `record_id` and
`new_slug` keys (`none` when the key is absent). -/
structure UpdateItem where
  record_id : Option String
  new_slug : Option String
deriving DecidableEq

/-- One per-item outcome of `bulk_update_slugs`. -/
structure UpdateResult where
  record_id : Option String
  success : Bool
  error : Option String
deriving DecidableEq

/-- Python truthiness of an optional string (`None` and `""` are falsy). -/
def truthyS : Option String → Bool
  | none => false
  | some s => !(decide (s = ""))

/-- The body of the loop of `AffiliateManager.bulk_update_slugs`
(src/affiliate_manager.py lines 118-155) for one item, threading the store. -/
def bulkStep (st : Store) (u : UpdateItem) : UpdateResult × Store :=
  if (truthyS u.record_id && truthyS u.new_slug) = false then
    (UpdateResult.mk u.record_id false (some "Missing record_id or new_slug"), st)
  else
    let rid := u.record_id.getD ""
    let ns := u.new_slug.getD ""
    let v := validate_slug ns
    if v.1 = false then
      (UpdateResult.mk u.record_id false (some ("Invalid slug: " ++ v.2)), st)
    else if check_slug_uniqueness st.products ns (some rid) = false then
      (UpdateResult.mk u.record_id false (some "Slug already exists"), st)
    else
      let r := update_product_slug st rid ns
      (UpdateResult.mk u.record_id r.1
        (if r.1 then none else some "Failed to update database"), r.2)

/-- `AffiliateManager.bulk_update_slugs` (src/affiliate_manager.py lines
111-157): process the items in order, appending one result per item. -/
def bulk_update_slugs : Store → List UpdateItem → List UpdateResult × Store
  | st, [] => ([], st)
  | st, u :: rest =>
    let r := bulkStep st u
    let rs := bulk_update_slugs r.2 rest
    (r.1 :: rs.1, rs.2)

/-- Lookup in the association list modelling the `slug_counts` dict. -/
def lookupCount : List (String × Nat) → String → Option Nat
  | [], _ => none
  | (k, v) :: rest, s => if k = s then some v else lookupCount rest s

/-- `slug_counts[slug] += 1` on the association list. -/
def bumpCount : List (String × Nat) → String → List (String × Nat)
  | [], _ => []
  | (k, v) :: rest, s =>
    if k = s then (k, v + 1) :: rest else (k, v) :: bumpCount rest s

/-- The duplicate-counting loop of `AffiliateManager.analyze_slug_performance`
(src/affiliate_manager.py lines 229-256), restricted to the fields it reads:
rows with a `NaN` or empty slug are skipped; on the second occurrence of a
slug value the counter gains 2, on each later occurrence 1. -/
def dupAux : List Product → List (String × Nat) → Nat → Nat
  | [], _, acc => acc
  | p :: rest, counts, acc =>
    match p.urlSlug with
    | none => dupAux rest counts acc
    | some s =>
      if s = "" then dupAux rest counts acc
      else
        match lookupCount counts s with
        | none => dupAux rest ((s, 1) :: counts) acc
        | some v =>
          dupAux rest (bumpCount counts s)
            (if v + 1 = 2 then acc + 2 else acc + 1)

/-- The `duplicate_slugs` field computed by `analyze_slug_performance`. -/
def duplicate_slugs_count (products : List Product) : Nat := dupAux products [] 0

/-- The sequence of non-null, non-empty slug values, in table order (exactly
the values the duplicate counter processes). -/
def slugOccurrences (products : List Product) : List String :=
  (products.filterMap (fun p => p.urlSlug)).filter (fun s => decide (s ≠ ""))

/-- Number of occurrences of `s` in `l`. -/
def occ (s : String) (l : List String) : Nat :=
  l.countP (fun x => decide (x = s))

/-- The closed form claimed for the duplicate counter: the number of products
whose exact (case-sensitive) non-empty slug value also occurs on some other
product, i.e. the number of occurrences belonging to a value with
multiplicity at least 2. -/
def claimDupCount (products : List Product) : Nat :=
  let ss := slugOccurrences products
  ss.countP (fun s => decide (2 ≤ occ s ss))

/-- Modelled from the spec wording of claim C3 (not from the source): the
availability predicate with products whose `URL Slug` is null **or empty**
contributing nothing to the assigned-slug set. -/
def claimAvailable (products : List Product) (slug : String)
    (exclude : Option String) : Bool :=
  let kept : List Product := match exclude with
    | some e => products.filter (fun p => decide (p.record_id ≠ e))
    | none => products
  let assigned :=
    ((kept.filterMap (fun p => p.urlSlug)).filter (fun s => decide (s ≠ ""))).map lowerStr
  !(assigned.contains (lowerStr slug))

/-- No two adjacent characters of the list both satisfy `p`. -/
def noDouble (p : Char → Bool) : List Char → Bool
  | [] => true
  | [_] => true
  | a :: b :: t => !(p a && p b) && noDouble p (b :: t)

/-- The first character (if any) does not satisfy `p`. -/
def headSafe (p : Char → Bool) : List Char → Bool
  | [] => true
  | c :: _ => !(p c)

/-- The last character (if any) does not satisfy `p`. -/
def lastSafe (p : Char → Bool) (l : List Char) : Bool :=
  match lastChar l with
  | some c => !(p c)
  | none => true

/-- Canonical slug material: characters in `[a-z0-9-]`, no two adjacent
hyphens, and no leading or trailing hyphen.  This is exactly the shape
`clean_slug` produces. -/
def goodSlug (l : List Char) : Bool :=
  l.all isSlugChar && noDouble isHyphen l && headSafe isHyphen l &&
    lastSafe isHyphen l

/-- Table of the spec example: products `1` and `2` already hold the slugs
`shoes` and `shoes-2`. -/
def exampleShoes : List Product :=
  [Product.mk "1" "Shoes" "" "" (some "shoes"),
   Product.mk "2" "Shoes two" "" "" (some "shoes-2")]

/-- A table on which `abc` and every numbered variant `abc-2 … abc-99` are
already assigned, exhausting the suggester's numbered candidates. -/
def takenTable : List Product :=
  Product.mk "1" "" "" "" (some "abc") ::
    (List.range' 2 98).map
      (fun i => Product.mk (toString i) "" "" "" (some ("abc-" ++ toString i)))

/-- A table whose single product has a present but empty `URL Slug`. -/
def emptySlugTable : List Product := [Product.mk "1" "Widget" "" "" (some "")]

/-- A one-product table holding the slug `taken`. -/
def exC3Table : List Product := [Product.mk "1" "" "" "" (some "taken")]

/-- A concrete two-product store used by the witnesses. -/
def exStore : Store :=
  Store.mk
    [Product.mk "1" "Alpha" "descr" "img" (some "old-slug"),
     Product.mk "2" "Beta" "" "" none]
    []

/-! Character-level facts -/

theorem lowerChar_of_slug {c : Char} (h : isSlugChar c = true) : lowerChar c = c := by
  have h' : ¬(65 ≤ c.toNat ∧ c.toNat ≤ 90) := by
    simp only [isSlugChar, Bool.or_eq_true, Bool.and_eq_true, decide_eq_true_eq] at h
    omega
  simp [lowerChar, h']

theorem slug_not_space {c : Char} (h : isSlugChar c = true) : isPySpace c = false := by
  simp only [isSlugChar, Bool.or_eq_true, Bool.and_eq_true, decide_eq_true_eq] at h
  simp only [isPySpace, Bool.or_eq_false_iff, decide_eq_false_iff_not]
  omega

theorem hyphen_eq_of_isHyphen {c : Char} (h : isHyphen c = true) : c = '-' :=
  of_decide_eq_true h

/-! Pipeline stages are the identity on already-clean input -/

theorem dropWhile_eq_self_of_not {p : Char → Bool} {l : List Char}
    (hl : ∀ c ∈ l, p c = false) : List.dropWhile p l = l := by
  cases l with
  | nil => rfl
  | cons a t => simp [List.dropWhile_cons, hl a (by simp)]

theorem rstrip_eq_self_of_not {p : Char → Bool} {l : List Char}
    (hl : ∀ c ∈ l, p c = false) : rstrip p l = l := by
  induction l with
  | nil => rfl
  | cons a t ih =>
    have ha : p a = false := hl a (by simp)
    have ht : rstrip p t = t := ih (fun c hc => hl c (by simp [hc]))
    cases t with
    | nil => simp [rstrip, ha]
    | cons b t' =>
      have hu : rstrip p (a :: b :: t') =
          match rstrip p (b :: t') with
          | [] => if p a = true then [] else [a]
          | r => a :: r := rfl
      rw [hu, ht]

theorem collapseAux_eq_self_of_not {p : Char → Bool} {r : Char} {l : List Char}
    (hl : ∀ c ∈ l, p c = false) : ∀ b, collapseAux p r l b = l := by
  induction l with
  | nil => intro _; rfl
  | cons a t ih =>
    intro b
    have ha : p a = false := hl a (by simp)
    simp [collapseAux, ha, ih (fun c hc => hl c (by simp [hc])) false]

theorem filter_eq_self_of_all {p : Char → Bool} {l : List Char}
    (hl : ∀ c ∈ l, p c = true) : List.filter p l = l := by
  induction l with
  | nil => rfl
  | cons a t ih =>
    simp [List.filter_cons, hl a (by simp), ih (fun c hc => hl c (by simp [hc]))]

theorem map_lower_eq_self {l : List Char}
    (hl : ∀ c ∈ l, isSlugChar c = true) : l.map lowerChar = l := by
  induction l with
  | nil => rfl
  | cons a t ih =>
    simp [lowerChar_of_slug (hl a (by simp)),
      ih (fun c hc => hl c (by simp [hc]))]

/-! Facts about noDouble -/

theorem noDouble_cons {p : Char → Bool} {a : Char} {l : List Char} :
    noDouble p (a :: l) = ((!(p a) || headSafe p l) && noDouble p l) := by
  cases l with
  | nil => simp [noDouble, headSafe]
  | cons b t => simp [noDouble, headSafe, Bool.not_and]

theorem noDouble_tail {p : Char → Bool} {a : Char} {l : List Char}
    (h : noDouble p (a :: l) = true) : noDouble p l = true := by
  rw [noDouble_cons, Bool.and_eq_true] at h
  exact h.2

theorem collapseAux_eq_self_of_noDouble {p : Char → Bool} {r : Char}
    (hrep : ∀ c, p c = true → c = r) :
    ∀ l, noDouble p l = true → collapseAux p r l false = l := by
  intro l
  induction l with
  | nil => intro _; rfl
  | cons a t ih =>
    intro h
    cases hpa : p a with
    | false => simp [collapseAux, hpa, ih (noDouble_tail h)]
    | true =>
      have har : a = r := hrep a hpa
      cases t with
      | nil => simp [collapseAux, hpa, har]
      | cons b t' =>
        have hpb : p b = false := by
          simp only [noDouble, Bool.and_eq_true] at h
          have h1 := h.1
          rw [hpa] at h1
          simpa using h1
        have ht : collapseAux p r t' false = t' := by
          have h2 := ih (noDouble_tail h)
          simp only [collapseAux, hpb] at h2
          simpa using h2
        simp [collapseAux, hpa, hpb, har, ht]

theorem collapseAux_true_headSafe {p : Char → Bool} {r : Char} :
    ∀ l, headSafe p (collapseAux p r l true) = true := by
  intro l
  induction l with
  | nil => rfl
  | cons a t ih =>
    cases hpa : p a with
    | true => simpa [collapseAux, hpa] using ih
    | false => simp [collapseAux, hpa, headSafe]

theorem noDouble_collapseAux {p : Char → Bool} {r : Char} :
    ∀ l b, noDouble p (collapseAux p r l b) = true := by
  intro l
  induction l with
  | nil => intro _; rfl
  | cons a t ih =>
    intro b
    cases hpa : p a with
    | true =>
      cases b with
      | true => simpa [collapseAux, hpa] using ih true
      | false =>
        have hu : collapseAux p r (a :: t) false = r :: collapseAux p r t true := by
          simp [collapseAux, hpa]
        rw [hu, noDouble_cons]
        simp [collapseAux_true_headSafe t, ih true]
    | false =>
      have hu : collapseAux p r (a :: t) b = a :: collapseAux p r t false := by
        simp [collapseAux, hpa]
      rw [hu, noDouble_cons]
      simp [hpa, ih false]

theorem noDouble_dropWhile {p q : Char → Bool} {l : List Char}
    (h : noDouble p l = true) : noDouble p (List.dropWhile q l) = true := by
  induction l with
  | nil => exact h
  | cons a t ih =>
    cases hqa : q a with
    | true =>
      rw [List.dropWhile_cons]
      simpa [hqa] using ih (noDouble_tail h)
    | false => simpa [List.dropWhile_cons, hqa] using h

theorem rstrip_shape {q : Char → Bool} :
    ∀ {l c cs : _}, rstrip q l = c :: cs → ∃ t', l = c :: t' := by
  intro l
  cases l with
  | nil => intro c cs h; simp [rstrip] at h
  | cons a t =>
    intro c cs h
    cases hrt : rstrip q t with
    | nil =>
      have hu : rstrip q (a :: t) = if q a = true then [] else [a] := by
        have : rstrip q (a :: t) =
            match rstrip q t with
            | [] => if q a = true then [] else [a]
            | r => a :: r := rfl
        rw [this, hrt]
      rw [hu] at h
      cases hqa : q a with
      | true => rw [hqa] at h; simp at h
      | false =>
        rw [hqa] at h
        simp at h
        exact ⟨t, by rw [h.1]⟩
    | cons b bs =>
      have hu : rstrip q (a :: t) = a :: b :: bs := by
        have : rstrip q (a :: t) =
            match rstrip q t with
            | [] => if q a = true then [] else [a]
            | r => a :: r := rfl
        rw [this, hrt]
      rw [hu] at h
      have h1 : a = c := ((List.cons.injEq a (b :: bs) c cs).mp h).1
      exact ⟨t, by rw [← h1]⟩

theorem noDouble_rstrip {p q : Char → Bool} {l : List Char}
    (h : noDouble p l = true) : noDouble p (rstrip q l) = true := by
  induction l with
  | nil => exact h
  | cons a t ih =>
    have hnt := noDouble_tail h
    cases hrt : rstrip q t with
    | nil =>
      have hu : rstrip q (a :: t) = if q a = true then [] else [a] := by
        have : rstrip q (a :: t) =
            match rstrip q t with
            | [] => if q a = true then [] else [a]
            | r => a :: r := rfl
        rw [this, hrt]
      rw [hu]
      cases q a <;> simp [noDouble]
    | cons b bs =>
      have hu : rstrip q (a :: t) = a :: b :: bs := by
        have : rstrip q (a :: t) =
            match rstrip q t with
            | [] => if q a = true then [] else [a]
            | r => a :: r := rfl
        rw [this, hrt]
      obtain ⟨t', ht'⟩ := rstrip_shape hrt
      have h1 : noDouble p (b :: bs) = true := by rw [← hrt]; exact ih hnt
      rw [hu, noDouble_cons]
      subst ht'
      rw [noDouble_cons, Bool.and_eq_true] at h
      simp only [headSafe] at h ⊢
      simp [h1]
      have h2 := h.1
      revert h2
      cases p a <;> cases p b <;> simp

/-! Membership and edge behaviour of the stages -/

theorem mem_collapseAux {p : Char → Bool} {r c : Char} :
    ∀ {l b}, c ∈ collapseAux p r l b → c = r ∨ c ∈ l := by
  intro l
  induction l with
  | nil => intro b h; simp [collapseAux] at h
  | cons a t ih =>
    intro b h
    cases hpa : p a with
    | true =>
      cases b with
      | true =>
        rw [show collapseAux p r (a :: t) true = collapseAux p r t true by
          simp [collapseAux, hpa]] at h
        rcases ih h with h' | h'
        · exact Or.inl h'
        · exact Or.inr (by simp [h'])
      | false =>
        rw [show collapseAux p r (a :: t) false = r :: collapseAux p r t true by
          simp [collapseAux, hpa]] at h
        rcases List.mem_cons.mp h with h' | h'
        · exact Or.inl h'
        · rcases ih h' with h'' | h''
          · exact Or.inl h''
          · exact Or.inr (by simp [h''])
    | false =>
      rw [show collapseAux p r (a :: t) b = a :: collapseAux p r t false by
        simp [collapseAux, hpa]] at h
      rcases List.mem_cons.mp h with h' | h'
      · exact Or.inr (by simp [h'])
      · rcases ih h' with h'' | h''
        · exact Or.inl h''
        · exact Or.inr (by simp [h''])

theorem mem_rstrip {q : Char → Bool} {c : Char} :
    ∀ {l}, c ∈ rstrip q l → c ∈ l := by
  intro l
  induction l with
  | nil => intro h; simp [rstrip] at h
  | cons a t ih =>
    intro h
    cases hrt : rstrip q t with
    | nil =>
      rw [show rstrip q (a :: t) = if q a = true then [] else [a] by
        have hu : rstrip q (a :: t) =
            match rstrip q t with
            | [] => if q a = true then [] else [a]
            | r => a :: r := rfl
        rw [hu, hrt]] at h
      cases hqa : q a with
      | true => rw [hqa] at h; simp at h
      | false =>
        rw [hqa] at h
        simp at h
        simp [h]
    | cons b bs =>
      rw [show rstrip q (a :: t) = a :: b :: bs by
        have hu : rstrip q (a :: t) =
            match rstrip q t with
            | [] => if q a = true then [] else [a]
            | r => a :: r := rfl
        rw [hu, hrt]] at h
      rcases List.mem_cons.mp h with h' | h'
      · simp [h']
      · have : c ∈ t := ih (by rw [hrt]; exact h')
        simp [this]

theorem mem_dropWhile {q : Char → Bool} {c : Char} :
    ∀ {l}, c ∈ List.dropWhile q l → c ∈ l := by
  intro l
  induction l with
  | nil => intro h; simp at h
  | cons a t ih =>
    intro h
    rw [List.dropWhile_cons] at h
    cases hqa : q a with
    | true =>
      rw [hqa] at h
      simp at h
      exact List.mem_cons_of_mem a (ih h)
    | false => rw [hqa] at h; simpa using h

theorem headSafe_dropWhile {q : Char → Bool} :
    ∀ l, headSafe q (List.dropWhile q l) = true := by
  intro l
  induction l with
  | nil => rfl
  | cons a t ih =>
    rw [List.dropWhile_cons]
    cases hqa : q a with
    | true => simpa [hqa] using ih
    | false => simp [hqa, headSafe]

theorem headSafe_rstrip {p q : Char → Bool} {l : List Char}
    (h : headSafe p l = true) : headSafe p (rstrip q l) = true := by
  cases hrt : rstrip q l with
  | nil => rfl
  | cons c cs =>
    obtain ⟨t', ht'⟩ := rstrip_shape hrt
    subst ht'
    simpa [headSafe] using h

theorem lastSafe_rstrip {q : Char → Bool} :
    ∀ l, lastSafe q (rstrip q l) = true := by
  intro l
  induction l with
  | nil => rfl
  | cons a t ih =>
    cases hrt : rstrip q t with
    | nil =>
      rw [show rstrip q (a :: t) = if q a = true then [] else [a] by
        have hu : rstrip q (a :: t) =
            match rstrip q t with
            | [] => if q a = true then [] else [a]
            | r => a :: r := rfl
        rw [hu, hrt]]
      cases hqa : q a with
      | true => simp [lastSafe, lastChar]
      | false => simp [lastSafe, lastChar, hqa]
    | cons b bs =>
      rw [show rstrip q (a :: t) = a :: b :: bs by
        have hu : rstrip q (a :: t) =
            match rstrip q t with
            | [] => if q a = true then [] else [a]
            | r => a :: r := rfl
        rw [hu, hrt]]
      have : lastSafe q (b :: bs) = true := by rw [← hrt]; exact ih
      simpa [lastSafe, lastChar] using this

theorem rstrip_eq_self_of_lastSafe {q : Char → Bool} :
    ∀ {l}, lastSafe q l = true → rstrip q l = l := by
  intro l
  induction l with
  | nil => intro _; rfl
  | cons a t ih =>
    intro h
    cases t with
    | nil =>
      simp only [lastSafe, lastChar] at h
      have hqa : q a = false := by simpa using h
      simp [rstrip, hqa]
    | cons b t' =>
      have ht : rstrip q (b :: t') = b :: t' := by
        apply ih
        simpa [lastSafe, lastChar] using h
      have hu : rstrip q (a :: b :: t') =
          match rstrip q (b :: t') with
          | [] => if q a = true then [] else [a]
          | r => a :: r := rfl
      rw [hu, ht]

theorem dropWhile_eq_self_of_headSafe {q : Char → Bool} {l : List Char}
    (h : headSafe q l = true) : List.dropWhile q l = l := by
  cases l with
  | nil => rfl
  | cons a t =>
    simp only [headSafe] at h
    have hqa : q a = false := by simpa using h
    simp [List.dropWhile_cons, hqa]

/-! The function clean_slug produces canonical slugs and fixes them -/

theorem cleanList_good : ∀ l, goodSlug (cleanList l) = true := by
  intro l
  have hall3 : ∀ c ∈ (List.filter isSlugChar
      (collapseRuns isPySpace '-' (stripBoth isPySpace (l.map lowerChar)))),
      isSlugChar c = true := fun c hc => List.of_mem_filter hc
  have hall4 : ∀ c ∈ (collapseRuns isHyphen '-'
      (List.filter isSlugChar
        (collapseRuns isPySpace '-' (stripBoth isPySpace (l.map lowerChar))))),
      isSlugChar c = true := by
    intro c hc
    rcases mem_collapseAux hc with h' | h'
    · subst h'; decide
    · exact hall3 c h'
  have hall : ∀ c ∈ cleanList l, isSlugChar c = true := by
    intro c hc
    exact hall4 c (mem_dropWhile (mem_rstrip hc))
  have hnd4 : noDouble isHyphen (collapseRuns isHyphen '-'
      (List.filter isSlugChar
        (collapseRuns isPySpace '-' (stripBoth isPySpace (l.map lowerChar))))) = true :=
    noDouble_collapseAux _ false
  have hnd : noDouble isHyphen (cleanList l) = true :=
    noDouble_rstrip (noDouble_dropWhile hnd4)
  have hhead : headSafe isHyphen (cleanList l) = true :=
    headSafe_rstrip (headSafe_dropWhile _)
  have hlast : lastSafe isHyphen (cleanList l) = true := lastSafe_rstrip _
  simp only [goodSlug, Bool.and_eq_true]
  exact ⟨⟨⟨List.all_eq_true.mpr hall, hnd⟩, hhead⟩, hlast⟩

theorem cleanList_fix {l : List Char} (h : goodSlug l = true) : cleanList l = l := by
  simp only [goodSlug, Bool.and_eq_true, List.all_eq_true] at h
  obtain ⟨⟨⟨hall, hnd⟩, hhead⟩, hlast⟩ := h
  have hnospace : ∀ c ∈ l, isPySpace c = false :=
    fun c hc => slug_not_space (hall c hc)
  have h1 : l.map lowerChar = l := map_lower_eq_self hall
  have h2 : stripBoth isPySpace l = l := by
    unfold stripBoth
    rw [dropWhile_eq_self_of_not hnospace, rstrip_eq_self_of_not hnospace]
  have h3 : collapseRuns isPySpace '-' l = l :=
    collapseAux_eq_self_of_not hnospace false
  have h4 : List.filter isSlugChar l = l := filter_eq_self_of_all hall
  have h5 : collapseRuns isHyphen '-' l = l :=
    collapseAux_eq_self_of_noDouble (fun c hc => hyphen_eq_of_isHyphen hc) l hnd
  have h6 : stripBoth isHyphen l = l := by
    unfold stripBoth
    rw [dropWhile_eq_self_of_headSafe hhead, rstrip_eq_self_of_lastSafe hlast]
  unfold cleanList
  rw [h1, h2, h3, h4, h5, h6]

/-- C6: normalization is idempotent: `normalize(normalize(x)) = normalize(x)`
for every input string `x` (`AffiliateManager.clean_slug`). -/
theorem clean_slug_idempotent (s : String) :
    clean_slug (clean_slug s) = clean_slug s := by
  by_cases hs : s = ""
  · subst hs; rfl
  · have h1 : clean_slug s = String.mk (cleanList s.data) := by
      simp [clean_slug, hs]
    rw [h1]
    by_cases h2 : String.mk (cleanList s.data) = ""
    · rw [h2]; rfl
    · have h3 : clean_slug (String.mk (cleanList s.data)) =
          String.mk (cleanList (String.mk (cleanList s.data)).data) := by
        simp [clean_slug, h2]
      rw [h3]
      have h4 : (String.mk (cleanList s.data)).data = cleanList s.data := rfl
      rw [h4, cleanList_fix (cleanList_good s.data)]

/-! The validator and the trailing-newline regex slip -/

/-- C1: the validator applies the six checks in source order and flags length
violations as claimed (`validate("ab")` is too short, a 101-character slug is
too long); but its rule (3) is implemented as Python
`re.match(r'^[a-z0-9-]+$', slug)`, and `$` also matches just before a newline
that ends the string, so the three-character string `"ab\n"` — which contains
a character outside `[a-z0-9-]` — passes every check and is declared valid,
contradicting the claimed exact character-set rule (and the validator's own
error message). -/
theorem validate_slug_newline_slip :
    validate_slug (String.mk [Char.ofNat 97, Char.ofNat 98, Char.ofNat 10]) =
        (true, "Valid slug") ∧
      isSlugChar (Char.ofNat 10) = false ∧
      validate_slug "ab" = (false, "Slug must be at least 3 characters long") ∧
      validate_slug (String.mk (List.replicate 101 (Char.ofNat 97))) =
        (false, "Slug cannot be longer than 100 characters") := by
  refine ⟨by decide, by decide, by decide, ?_⟩
  decide

/-- C7: exhibiting the same slip against the canonicity property: the
validator accepts `"ab\n"`, yet `normalize("ab\n") = "ab" ≠ "ab\n"`, so not
every accepted slug is a fixpoint of the normalizer. -/
theorem validator_accepts_non_canonical :
    (validate_slug (String.mk [Char.ofNat 97, Char.ofNat 98, Char.ofNat 10])).1 = true ∧
      clean_slug (String.mk [Char.ofNat 97, Char.ofNat 98, Char.ofNat 10]) =
        String.mk [Char.ofNat 97, Char.ofNat 98] ∧
      String.mk [Char.ofNat 97, Char.ofNat 98] ≠
        String.mk [Char.ofNat 97, Char.ofNat 98, Char.ofNat 10] := by
  refine ⟨by decide, by decide, by decide⟩

/-! Uniqueness index (C3) -/

/-- C3 counterexample: on a table whose only product has a present but empty
`URL Slug`, the code reports the empty candidate as *taken* (pandas `dropna`
keeps empty strings), while the claim's set — built from non-empty slugs
only — would report it available. -/
theorem check_slug_uniqueness_empty_divergence :
    check_slug_uniqueness emptySlugTable "" none = false ∧
      claimAvailable emptySlugTable "" none = true := by
  refine ⟨by decide, by decide⟩

/-- C3 as amended: for tables whose record ids are non-empty (which
`load_products` guarantees: it drops rows with empty or `nan` ids),
availability holds iff the lower-cased candidate differs from the
lower-casing of every **non-null** `URL Slug` (empty strings included) of
every product other than the excluded one. -/
theorem check_slug_uniqueness_spec (products : List Product) (slug : String)
    (ex : Option String) (hid : ∀ p ∈ products, p.record_id ≠ "") :
    check_slug_uniqueness products slug ex = true ↔
      ∀ p ∈ products, (∀ e, ex = some e → p.record_id ≠ e) →
        ∀ s, p.urlSlug = some s → lowerStr s ≠ lowerStr slug := by
  have core : ∀ df : List Product,
      ((!(List.map lowerStr (List.filterMap (fun p => p.urlSlug) df)).contains
          (lowerStr slug)) = true ↔
        ∀ p ∈ df, ∀ s, p.urlSlug = some s → lowerStr s ≠ lowerStr slug) := by
    intro df
    constructor
    · intro h p hp s hs heq
      have hmem : lowerStr slug ∈
          List.map lowerStr (List.filterMap (fun p => p.urlSlug) df) :=
        List.mem_map.mpr ⟨s, List.mem_filterMap.mpr ⟨p, hp, hs⟩, heq⟩
      simp [List.contains, List.elem_eq_mem, hmem] at h
    · intro h
      have hnm : ¬ lowerStr slug ∈
          List.map lowerStr (List.filterMap (fun p => p.urlSlug) df) := by
        intro hmem
        obtain ⟨x, hx, hxe⟩ := List.mem_map.mp hmem
        obtain ⟨p, hp, hps⟩ := List.mem_filterMap.mp hx
        exact h p hp x hps hxe
      simp [List.contains, List.elem_eq_mem, hnm]
  cases ex with
  | none =>
    have hdf : check_slug_uniqueness products slug none =
        (!(List.map lowerStr (List.filterMap (fun p => p.urlSlug) products)).contains
          (lowerStr slug)) := by
      simp [check_slug_uniqueness]
    rw [hdf, core products]
    constructor
    · intro h p hp _ s hs
      exact h p hp s hs
    · intro h p hp s hs
      exact h p hp (fun e he => by cases he) s hs
  | some e =>
    by_cases he : e = ""
    · subst he
      have hdf : check_slug_uniqueness products slug (some "") =
          (!(List.map lowerStr (List.filterMap (fun p => p.urlSlug) products)).contains
            (lowerStr slug)) := by
        simp [check_slug_uniqueness]
      rw [hdf, core products]
      constructor
      · intro h p hp _ s hs
        exact h p hp s hs
      · intro h p hp s hs
        refine h p hp ?_ s hs
        intro e' he'
        cases he'
        exact hid p hp
    · have hdf : check_slug_uniqueness products slug (some e) =
          (!(List.map lowerStr (List.filterMap (fun p => p.urlSlug)
              (products.filter (fun p => decide (p.record_id ≠ e))))).contains
            (lowerStr slug)) := by
        simp [check_slug_uniqueness, he]
      rw [hdf, core (products.filter (fun p => decide (p.record_id ≠ e)))]
      constructor
      · intro h p hp hne s hs
        exact h p (List.mem_filter.mpr ⟨hp, by simpa using hne e rfl⟩) s hs
      · intro h p hp s hs
        have hp' := List.mem_filter.mp hp
        exact h p hp'.1 (fun e' he' => by cases he'; simpa using hp'.2) s hs

/-- Witness for `check_slug_uniqueness_spec` at a concrete table. -/
theorem check_slug_uniqueness_spec_witness :
    check_slug_uniqueness exC3Table "free" none = true :=
  (check_slug_uniqueness_spec exC3Table "free" none (by decide)).mpr
    (by
      intro p hp _ s hs
      have hp1 : p = Product.mk "1" "" "" "" (some "taken") := by
        simpa [exC3Table] using hp
      subst hp1
      have hs1 : "taken" = s := by simpa using hs
      subst hs1
      decide)

/-! Slug suggester (C2, C5) -/

theorem find?_range'_first {p : Nat → Bool} :
    ∀ n s i, s ≤ i → i < s + n → p i = true →
      (∀ j, s ≤ j → j < i → p j = false) →
      List.find? p (List.range' s n) = some i := by
  intro n
  induction n with
  | zero => intro s i h1 h2 _ _; exact absurd h2 (by omega)
  | succ n ih =>
    intro s i h1 h2 h3 h4
    rw [List.range'_succ]
    by_cases hsi : i = s
    · subst hsi
      exact List.find?_cons_of_pos _ h3
    · have hps : p s = false := h4 s le_rfl (by omega)
      rw [List.find?_cons_of_neg _ (by simp [hps])]
      exact ih (s + 1) i (by omega) (by omega) h3 (fun j hj1 hj2 => h4 j (by omega) hj2)

/-- C2 counterexample: on `takenTable` (where `abc` and `abc-2 … abc-99` are
all assigned), `suggest("abc")` with current month/day `"2"` falls back to
the timestamp candidate `abc-2`, a non-empty token that is *not* available —
so the suggester does not produce a guaranteed-available slug. -/
theorem suggest_slug_fallback_taken :
    suggest_slug takenTable "abc" "2" = "abc-2" ∧
      check_slug_uniqueness takenTable "abc-2" none = false := by
  have h1 : suggest_slug takenTable "abc" "2" = "abc-2" := by decide
  exact ⟨h1, by decide⟩

/-- C2 amended: whenever the suggestion does not come from the
best-effort timestamp fallback — i.e. the base slug or some numbered variant
`base-2 … base-99` is still available — a non-empty suggested token is
guaranteed available. -/
theorem suggest_slug_available_unless_fallback (ps : List Product)
    (name ts : String)
    (h : check_slug_uniqueness ps (clean_slug name) none = true ∨
      ∃ i, 2 ≤ i ∧ i < 100 ∧
        check_slug_uniqueness ps (clean_slug name ++ "-" ++ toString i) none = true)
    (hne : suggest_slug ps name ts ≠ "") :
    check_slug_uniqueness ps (suggest_slug ps name ts) none = true := by
  by_cases h0 : name = ""
  · exact absurd (by simp [suggest_slug, h0]) hne
  · by_cases h1 : (clean_slug name).length < 3
    · exact absurd (by simp [suggest_slug, h0, h1]) hne
    · by_cases h2 : check_slug_uniqueness ps (clean_slug name) none = true
      · have : suggest_slug ps name ts = clean_slug name := by
          simp [suggest_slug, h0, h1, h2]
        rw [this]
        exact h2
      · have h2' : check_slug_uniqueness ps (clean_slug name) none = false := by
          simpa using h2
        rcases h with hbase | ⟨i, hi2, hi100, hpi⟩
        · exact absurd hbase h2
        · have hmem : i ∈ List.range' 2 98 :=
            List.mem_range'.mpr ⟨i - 2, by omega, by omega⟩
          have hsome : (List.find?
              (fun k => check_slug_uniqueness ps (clean_slug name ++ "-" ++ toString k) none)
              (List.range' 2 98)).isSome :=
            List.find?_isSome.mpr ⟨i, hmem, by simp [hpi]⟩
          obtain ⟨j, hj⟩ := Option.isSome_iff_exists.mp hsome
          have hres : suggest_slug ps name ts = clean_slug name ++ "-" ++ toString j := by
            simp [suggest_slug, h0, h1, h2', hj]
          rw [hres]
          simpa using List.find?_some hj

/-- Witness: on the spec's example table the suggestion path is not the
fallback, and the suggested token is indeed available. -/
theorem suggest_slug_available_witness :
    check_slug_uniqueness exampleShoes (suggest_slug exampleShoes "Shoes!!" "0101")
      none = true :=
  suggest_slug_available_unless_fallback exampleShoes "Shoes!!" "0101"
    (Or.inr ⟨3, by decide, by decide, by decide⟩) (by decide)

/-- C5: the suggester computes `base = normalize(name)` and (1) returns empty
when `len(base) < 3`; (2) returns `base` when `base` is available; (3)
otherwise returns `base-i` for the *least* available `i` among `2 … 99`; and
(4) on the spec's example table `suggest("Shoes!!")` returns `shoes-3`. -/
theorem suggest_slug_spec :
    (∀ ps name ts, (clean_slug name).length < 3 → suggest_slug ps name ts = "") ∧
    (∀ ps name ts, 3 ≤ (clean_slug name).length →
      check_slug_uniqueness ps (clean_slug name) none = true →
      suggest_slug ps name ts = clean_slug name) ∧
    (∀ ps name ts i, 3 ≤ (clean_slug name).length →
      check_slug_uniqueness ps (clean_slug name) none = false →
      2 ≤ i → i < 100 →
      check_slug_uniqueness ps (clean_slug name ++ "-" ++ toString i) none = true →
      (∀ j, 2 ≤ j → j < i →
        check_slug_uniqueness ps (clean_slug name ++ "-" ++ toString j) none = false) →
      suggest_slug ps name ts = clean_slug name ++ "-" ++ toString i) ∧
    suggest_slug exampleShoes "Shoes!!" "0101" = "shoes-3" := by
  refine ⟨?_, ?_, ?_, by decide⟩
  · intro ps name ts hlen
    by_cases h0 : name = ""
    · simp [suggest_slug, h0]
    · simp [suggest_slug, h0, hlen]
  · intro ps name ts hlen hav
    have h0 : name ≠ "" := by
      intro hn
      rw [hn] at hlen
      have he : clean_slug "" = "" := rfl
      rw [he] at hlen
      exact absurd hlen (by decide)
    have h1 : ¬((clean_slug name).length < 3) := by omega
    simp [suggest_slug, h0, h1, hav]
  · intro ps name ts i hlen hbase hi2 hi100 hpi hmin
    have h0 : name ≠ "" := by
      intro hn
      rw [hn] at hlen
      have he : clean_slug "" = "" := rfl
      rw [he] at hlen
      exact absurd hlen (by decide)
    have h1 : ¬((clean_slug name).length < 3) := by omega
    have hfind : List.find?
        (fun k => check_slug_uniqueness ps (clean_slug name ++ "-" ++ toString k) none)
        (List.range' 2 98) = some i :=
      find?_range'_first 98 2 i hi2 (by omega) hpi
        (fun j hj1 hj2 => hmin j hj1 hj2)
    simp [suggest_slug, h0, h1, hbase, hfind]

/-- Witness for `suggest_slug_spec` instantiating the least-available-variant
clause on the spec's example table. -/
theorem suggest_slug_spec_witness :
    suggest_slug exampleShoes "Shoes!!" "0101" =
      clean_slug "Shoes!!" ++ "-" ++ toString 3 :=
  suggest_slug_spec.2.2.1 exampleShoes "Shoes!!" "0101" 3 (by decide) (by decide)
    (by decide) (by decide) (by decide)
    (by
      intro j h2 h3
      have hj : j = 2 := by omega
      subst hj
      decide)

/-! Bulk reconciler (C4) and persistence (C8, C10) -/

theorem update_fst_false_snd_eq {st : Store} {rid ns : String}
    (h : (update_product_slug st rid ns).1 = false) :
    (update_product_slug st rid ns).2 = st := by
  unfold update_product_slug at h ⊢
  cases ha : st.products.any (fun p => decide (p.record_id = rid)) with
  | true => rw [ha] at h; simp [save_products] at h
  | false => simp

/-- C4: bulk apply returns one outcome per input item, in input order
(length is preserved and the result list is built head-first); an item whose
outcome is a failure leaves the store exactly as it was, so it cannot alter
any other item's outcome; and each item is classified with the claimed
precedence — missing field, then validation (carrying the validator's
reason), then availability with self-exclusion, then the persistence result.
The final conjunct checks the spec's two-item example. -/
theorem bulk_update_slugs_spec :
    (∀ st us, (bulk_update_slugs st us).1.length = us.length) ∧
    (∀ st u rest, (bulk_update_slugs st (u :: rest)).1 =
      (bulkStep st u).1 :: (bulk_update_slugs (bulkStep st u).2 rest).1) ∧
    (∀ st u, (bulkStep st u).1.success = false → (bulkStep st u).2 = st) ∧
    (∀ st u, (truthyS u.record_id && truthyS u.new_slug) = false →
      bulkStep st u =
        (UpdateResult.mk u.record_id false (some "Missing record_id or new_slug"), st)) ∧
    (∀ st u rid ns, u.record_id = some rid → u.new_slug = some ns →
      rid ≠ "" → ns ≠ "" → (validate_slug ns).1 = false →
      bulkStep st u = (UpdateResult.mk u.record_id false
        (some ("Invalid slug: " ++ (validate_slug ns).2)), st)) ∧
    (∀ st u rid ns, u.record_id = some rid → u.new_slug = some ns →
      rid ≠ "" → ns ≠ "" → (validate_slug ns).1 = true →
      check_slug_uniqueness st.products ns (some rid) = false →
      bulkStep st u =
        (UpdateResult.mk u.record_id false (some "Slug already exists"), st)) ∧
    (∀ st u rid ns, u.record_id = some rid → u.new_slug = some ns →
      rid ≠ "" → ns ≠ "" → (validate_slug ns).1 = true →
      check_slug_uniqueness st.products ns (some rid) = true →
      bulkStep st u = (UpdateResult.mk u.record_id (update_product_slug st rid ns).1
        (if (update_product_slug st rid ns).1 then none
         else some "Failed to update database"),
        (update_product_slug st rid ns).2)) ∧
    (bulk_update_slugs exStore
        [UpdateItem.mk (some "1") (some "valid-one"),
         UpdateItem.mk (some "2") (some "")]).1 =
      [UpdateResult.mk (some "1") true none,
       UpdateResult.mk (some "2") false (some "Missing record_id or new_slug")] := by
  refine ⟨?_, ?_, ?_, ?_, ?_, ?_, ?_, by decide⟩
  · intro st us
    induction us generalizing st with
    | nil => rfl
    | cons u rest ih => simp [bulk_update_slugs, ih]
  · intro st u rest
    rfl
  · intro st u h
    unfold bulkStep at h ⊢
    by_cases hm : (truthyS u.record_id && truthyS u.new_slug) = false
    · simp [hm]
    · rw [if_neg hm] at h ⊢
      by_cases hv : (validate_slug (u.new_slug.getD "")).1 = false
      · simp [hv]
      · rw [if_neg hv] at h ⊢
        by_cases ht : check_slug_uniqueness st.products (u.new_slug.getD "")
            (some (u.record_id.getD "")) = false
        · simp [ht]
        · rw [if_neg ht] at h ⊢
          simp only at h
          simp only []
          exact update_fst_false_snd_eq h
  · intro st u hm
    simp [bulkStep, hm]
  · intro st u rid ns h1 h2 h3 h4 hval
    have htr : truthyS (some rid) = true := by simp [truthyS, h3]
    have htn : truthyS (some ns) = true := by simp [truthyS, h4]
    simp [bulkStep, h1, h2, htr, htn, hval]
  · intro st u rid ns h1 h2 h3 h4 hval huniq
    have htr : truthyS (some rid) = true := by simp [truthyS, h3]
    have htn : truthyS (some ns) = true := by simp [truthyS, h4]
    simp [bulkStep, h1, h2, htr, htn, hval, huniq]
  · intro st u rid ns h1 h2 h3 h4 hval huniq
    have htr : truthyS (some rid) = true := by simp [truthyS, h3]
    have htn : truthyS (some ns) = true := by simp [truthyS, h4]
    simp [bulkStep, h1, h2, htr, htn, hval, huniq]

/-- Witness for `bulk_update_slugs_spec`: the missing-field clause at the
spec's second example item. -/
theorem bulk_update_slugs_spec_witness :
    bulkStep exStore (UpdateItem.mk (some "2") (some "")) =
      (UpdateResult.mk (some "2") false (some "Missing record_id or new_slug"),
        exStore) :=
  bulk_update_slugs_spec.2.2.2.1 exStore (UpdateItem.mk (some "2") (some ""))
    (by decide)

/-- C8: when some product matches `record_id`, the update succeeds and the
persisted table has the same length and order; every field of every product
other than `URL Slug` is preserved, non-matching products are untouched, and
matching products get exactly the new slug (the store also gains one backup
of the prior table, as `save_products` prescribes). -/
theorem update_product_slug_frame (st : Store) (rid ns : String)
    (hfound : ∃ p ∈ st.products, p.record_id = rid) :
    (update_product_slug st rid ns).1 = true ∧
    (update_product_slug st rid ns).2.products.length = st.products.length ∧
    (update_product_slug st rid ns).2.backups = (st.products :: st.backups).take 10 ∧
    ∀ i p q, st.products.get? i = some p →
      (update_product_slug st rid ns).2.products.get? i = some q →
      q.record_id = p.record_id ∧ q.name = p.name ∧
        q.description = p.description ∧ q.images = p.images ∧
        (p.record_id ≠ rid → q = p) ∧
        (p.record_id = rid → q.urlSlug = some ns) := by
  obtain ⟨p0, hp0, hpr⟩ := hfound
  have hany : st.products.any (fun p => decide (p.record_id = rid)) = true :=
    List.any_eq_true.mpr ⟨p0, hp0, by simp [hpr]⟩
  have hred : update_product_slug st rid ns =
      (true, Store.mk
        (st.products.map (fun p =>
          if p.record_id = rid then
            Product.mk p.record_id p.name p.description p.images (some ns)
          else p))
        ((st.products :: st.backups).take 10)) := by
    simp [update_product_slug, hany, save_products]
  rw [hred]
  refine ⟨rfl, by simp, rfl, ?_⟩
  intro i p q hp hq
  simp only [List.get?_map, hp, Option.map_some'] at hq
  have hq' : q = if p.record_id = rid then
      Product.mk p.record_id p.name p.description p.images (some ns) else p := by
    exact (Option.some.injEq _ _ ▸ hq).symm
  by_cases hc : p.record_id = rid
  · rw [hq', if_pos hc]
    exact ⟨rfl, rfl, rfl, rfl, fun hn => absurd hc hn, fun _ => rfl⟩
  · rw [hq', if_neg hc]
    exact ⟨rfl, rfl, rfl, rfl, fun _ => rfl, fun he => absurd he hc⟩

/-- Witness for `update_product_slug_frame` on the concrete store. -/
theorem update_product_slug_frame_witness :
    (update_product_slug exStore "1" "new-slug").1 = true ∧
      (update_product_slug exStore "1" "new-slug").2.products.length = 2 := by
  have h := update_product_slug_frame exStore "1" "new-slug"
    ⟨Product.mk "1" "Alpha" "descr" "img" (some "old-slug"), by simp [exStore], rfl⟩
  exact ⟨h.1, by rw [h.2.1]; rfl⟩

/-- C10: when no product matches `record_id`, `update_product_slug` returns
`False` and the store — products *and* backups — is returned unchanged (the
`ValueError` is raised before `save_products`, so no write and no backup
happens); consequently a bulk item with an unknown id that passes validation
and availability is reported as the persistence failure
`Failed to update database` with the store intact. -/
theorem update_product_slug_unknown_id (st : Store) (u : UpdateItem)
    (rid ns : String) (hu1 : u.record_id = some rid) (hu2 : u.new_slug = some ns)
    (hrid : rid ≠ "") (hval : (validate_slug ns).1 = true)
    (havail : check_slug_uniqueness st.products ns (some rid) = true)
    (hmiss : ∀ p ∈ st.products, p.record_id ≠ rid) :
    update_product_slug st rid ns = (false, st) ∧
      bulkStep st u =
        (UpdateResult.mk u.record_id false (some "Failed to update database"), st) := by
  have hns : ns ≠ "" := by
    intro h
    rw [h] at hval
    exact absurd hval (by decide)
  have hany : st.products.any (fun p => decide (p.record_id = rid)) = false := by
    cases ha : st.products.any (fun p => decide (p.record_id = rid)) with
    | false => rfl
    | true =>
      obtain ⟨p, hp, hd⟩ := List.any_eq_true.mp ha
      exact absurd (of_decide_eq_true hd) (hmiss p hp)
  have hupd : update_product_slug st rid ns = (false, st) := by
    simp [update_product_slug, hany]
  have htr : truthyS (some rid) = true := by simp [truthyS, hrid]
  have htn : truthyS (some ns) = true := by simp [truthyS, hns]
  refine ⟨hupd, ?_⟩
  simp [bulkStep, hu1, hu2, htr, htn, hval, havail, hupd]

/-- Witness for `update_product_slug_unknown_id`: id `3` matches nothing in
the concrete store. -/
theorem update_product_slug_unknown_id_witness :
    update_product_slug exStore "3" "fresh-slug" = (false, exStore) ∧
      bulkStep exStore (UpdateItem.mk (some "3") (some "fresh-slug")) =
        (UpdateResult.mk (some "3") false (some "Failed to update database"),
          exStore) :=
  update_product_slug_unknown_id exStore (UpdateItem.mk (some "3") (some "fresh-slug"))
    "3" "fresh-slug" rfl rfl (by decide) (by decide) (by decide) (by decide)

/-! Duplicate counter (C9) -/

theorem occ_append_singleton (x s : String) (l : List String) :
    occ x (l ++ [s]) = occ x l + (if s = x then 1 else 0) := by
  simp only [occ, List.countP_append, List.countP_cons, List.countP_nil]
  by_cases h : s = x
  · simp [h]
  · simp [h]

theorem countP_mod_single (p q : String → Bool) (s : String)
    (hagree : ∀ x, x ≠ s → p x = q x) :
    ∀ l : List String, l.countP p + (if q s then occ s l else 0) =
      l.countP q + (if p s then occ s l else 0) := by
  intro l
  induction l with
  | nil => simp [occ]
  | cons a t ih =>
    have hocc : occ s (a :: t) = occ s t + (if a = s then 1 else 0) := by
      simp only [occ, List.countP_cons]
      by_cases h : a = s
      · simp [h]
      · simp [h]
    rw [List.countP_cons, List.countP_cons, hocc]
    by_cases ha : a = s
    · subst ha
      rw [if_pos rfl]
      cases hp : p a <;> cases hq : q a <;>
        simp only [hp, hq, if_true, if_false, Bool.false_eq_true, Bool.true_eq_false] at ih ⊢ <;>
        omega
    · rw [if_neg ha, hagree a ha]
      cases hqa : q a <;> cases hps : p s <;> cases hqs : q s <;>
        simp only [hqa, hps, hqs, if_true, if_false, Bool.false_eq_true, Bool.true_eq_false] at ih ⊢ <;>
        omega

theorem dupF_snoc (seen : List String) (s : String) :
    (seen ++ [s]).countP (fun x => decide (2 ≤ occ x (seen ++ [s]))) =
      seen.countP (fun x => decide (2 ≤ occ x seen)) +
        (if occ s seen = 1 then 2 else if 1 ≤ occ s seen then 1 else 0) := by
  have hocc_s : occ s (seen ++ [s]) = occ s seen + 1 := by
    rw [occ_append_singleton, if_pos rfl]
  have hagree : ∀ x, x ≠ s →
      (fun x => decide (2 ≤ occ x (seen ++ [s]))) x =
        (fun x => decide (2 ≤ occ x seen)) x := by
    intro x hx
    have hox : occ x (seen ++ [s]) = occ x seen := by
      rw [occ_append_singleton, if_neg (fun he => hx he.symm)]
      omega
    simp only [hox]
  have key := countP_mod_single _ _ s hagree seen
  simp only at key
  rw [hocc_s] at key
  rw [List.countP_append]
  have hsing : List.countP (fun x => decide (2 ≤ occ x (seen ++ [s]))) [s] =
      if 2 ≤ occ s seen + 1 then 1 else 0 := by
    simp only [List.countP_cons, List.countP_nil, hocc_s, Nat.zero_add]
    by_cases h : 2 ≤ occ s seen + 1
    · simp [h]
    · simp [h]
  rw [hsing]
  by_cases h0 : occ s seen = 0
  · have ha : decide (2 ≤ occ s seen) = false := by simp [h0]
    have hb : decide (2 ≤ occ s seen + 1) = false := by simp [h0]
    rw [ha, hb] at key
    simp only [Bool.false_eq_true, if_false] at key
    rw [if_neg (by omega : ¬ 2 ≤ occ s seen + 1), if_neg (by omega : ¬ occ s seen = 1),
      if_neg (by omega : ¬ 1 ≤ occ s seen)]
    omega
  · by_cases h1 : occ s seen = 1
    · have ha : decide (2 ≤ occ s seen) = false := by simp [h1]
      have hb : decide (2 ≤ occ s seen + 1) = true := by simp [h1]
      rw [ha, hb] at key
      simp only [Bool.false_eq_true, if_false, if_true] at key
      rw [if_pos (by omega : 2 ≤ occ s seen + 1), if_pos h1]
      omega
    · have h2 : 2 ≤ occ s seen := by omega
      have ha : decide (2 ≤ occ s seen) = true := by simp [h2]
      have hb : decide (2 ≤ occ s seen + 1) = true := by simp [h2, Nat.le_succ_of_le]
      rw [ha, hb] at key
      simp only [if_true] at key
      rw [if_pos (by omega : 2 ≤ occ s seen + 1), if_neg h1,
        if_pos (by omega : 1 ≤ occ s seen)]
      omega

theorem lookupCount_bump (s t : String) :
    ∀ counts : List (String × Nat),
      lookupCount (bumpCount counts s) t =
        if s = t then (lookupCount counts t).map (· + 1) else lookupCount counts t := by
  intro counts
  induction counts with
  | nil =>
    by_cases h : s = t <;> simp [bumpCount, lookupCount, h]
  | cons kv rest ih =>
    obtain ⟨k, v⟩ := kv
    by_cases hks : k = s
    · subst hks
      by_cases hkt : k = t
      · subst hkt
        simp [bumpCount, lookupCount]
      · simp [bumpCount, lookupCount, hkt]
    · by_cases hkt : k = t
      · subst hkt
        have hst : ¬ s = k := fun h => hks h.symm
        simp [bumpCount, lookupCount, hks, hst]
      · simp [bumpCount, lookupCount, hks, hkt, ih]

theorem dupAux_spec :
    ∀ (ps : List Product) (counts : List (String × Nat)) (acc : Nat)
      (seen : List String),
      (∀ s, lookupCount counts s =
        if occ s seen = 0 then none else some (occ s seen)) →
      dupAux ps counts acc + seen.countP (fun x => decide (2 ≤ occ x seen)) =
        acc + (seen ++ slugOccurrences ps).countP
          (fun x => decide (2 ≤ occ x (seen ++ slugOccurrences ps))) := by
  intro ps
  induction ps with
  | nil =>
    intro counts acc seen hinv
    simp [dupAux, slugOccurrences]
  | cons p rest ih =>
    intro counts acc seen hinv
    cases hps : p.urlSlug with
    | none =>
      have hso : slugOccurrences (p :: rest) = slugOccurrences rest := by
        simp [slugOccurrences, List.filterMap_cons, hps]
      have hstep : dupAux (p :: rest) counts acc = dupAux rest counts acc := by
        simp [dupAux, hps]
      rw [hstep, hso]
      exact ih counts acc seen hinv
    | some s =>
      by_cases hse : s = ""
      · have hso : slugOccurrences (p :: rest) = slugOccurrences rest := by
          simp [slugOccurrences, List.filterMap_cons, hps, hse]
        have hstep : dupAux (p :: rest) counts acc = dupAux rest counts acc := by
          simp [dupAux, hps, hse]
        rw [hstep, hso]
        exact ih counts acc seen hinv
      · have hso : slugOccurrences (p :: rest) = s :: slugOccurrences rest := by
          simp [slugOccurrences, List.filterMap_cons, hps, hse]
        have hassoc : seen ++ s :: slugOccurrences rest =
            (seen ++ [s]) ++ slugOccurrences rest := by simp
        have hl := hinv s
        by_cases h0 : occ s seen = 0
        · rw [h0, if_pos rfl] at hl
          have hstep : dupAux (p :: rest) counts acc =
              dupAux rest ((s, 1) :: counts) acc := by
            simp [dupAux, hps, hse, hl]
          have hinv' : ∀ t, lookupCount ((s, 1) :: counts) t =
              if occ t (seen ++ [s]) = 0 then none else some (occ t (seen ++ [s])) := by
            intro t
            by_cases hst : s = t
            · subst hst
              have : occ s (seen ++ [s]) = 1 := by
                rw [occ_append_singleton, if_pos rfl, h0]
              simp [lookupCount, this]
            · have : occ t (seen ++ [s]) = occ t seen := by
                rw [occ_append_singleton, if_neg hst]
                omega
              simp [lookupCount, hst, this, hinv t]
          have hrec := ih ((s, 1) :: counts) acc (seen ++ [s]) hinv'
          have hsnoc := dupF_snoc seen s
          rw [h0] at hsnoc
          simp only [show ¬((0 : Nat) = 1) by omega, show ¬(1 ≤ (0 : Nat)) by omega,
            if_false] at hsnoc
          rw [hstep, hso, hassoc]
          omega
        · have hv : lookupCount counts s = some (occ s seen) := by
            rw [hl, if_neg h0]
          have hstep : dupAux (p :: rest) counts acc =
              dupAux rest (bumpCount counts s)
                (if occ s seen + 1 = 2 then acc + 2 else acc + 1) := by
            simp [dupAux, hps, hse, hv]
          have hinv' : ∀ t, lookupCount (bumpCount counts s) t =
              if occ t (seen ++ [s]) = 0 then none else some (occ t (seen ++ [s])) := by
            intro t
            rw [lookupCount_bump s t counts]
            by_cases hst : s = t
            · subst hst
              have hocc1 : occ s (seen ++ [s]) = occ s seen + 1 := by
                rw [occ_append_singleton, if_pos rfl]
              rw [if_pos rfl, hinv s, if_neg h0, hocc1]
              simp [show ¬(occ s seen + 1 = 0) by omega]
            · have : occ t (seen ++ [s]) = occ t seen := by
                rw [occ_append_singleton, if_neg hst]
                omega
              rw [if_neg hst, this, hinv t]
          have hrec := ih (bumpCount counts s)
            (if occ s seen + 1 = 2 then acc + 2 else acc + 1) (seen ++ [s]) hinv'
          have hsnoc := dupF_snoc seen s
          rw [hstep, hso, hassoc]
          by_cases h1 : occ s seen = 1
          · rw [h1, if_pos rfl] at hsnoc
            have hif : (if occ s seen + 1 = 2 then acc + 2 else acc + 1) = acc + 2 := by
              simp [h1]
            rw [hif] at hrec ⊢
            omega
          · have h2 : 1 ≤ occ s seen := by omega
            rw [if_neg h1, if_pos h2] at hsnoc
            have hif : (if occ s seen + 1 = 2 then acc + 2 else acc + 1) = acc + 1 := by
              rw [if_neg (by omega)]
            rw [hif] at hrec ⊢
            omega

/-- C9: the `duplicate_slugs` counter of `analyze_slug_performance` — which
adds 2 on the second occurrence of a non-empty slug value and 1 on each later
occurrence — equals the number of products whose exact (case-sensitive)
non-empty slug value also occurs on at least one other product, i.e. the sum
of `k` over slug values occurring `k ≥ 2` times. -/
theorem duplicate_slugs_count_spec (ps : List Product) :
    duplicate_slugs_count ps = claimDupCount ps := by
  have h := dupAux_spec ps [] 0 []
    (by intro s; simp [lookupCount, occ])
  simp only [List.countP_nil, List.nil_append] at h
  simpa [duplicate_slugs_count, claimDupCount] using h

end Catalog
